import Mathlib

/-!
Shallow embedding, in Lean 4, of the Session State Scanner of this repository
(`server.py`, class `RealtimeScanner`: `scan_active_sessions` and
`_parse_session`).  The filesystem is modelled as a snapshot value (project
directories with log files); each log line is modelled as the result of
`json.loads` on that line (`none` when the line is not valid JSON, since JSON
parsing itself is the Python standard library, not code of this repository).
Python exceptions are modelled with `Except Unit`; the per-file
`try/except` of `_parse_session` maps an exception to `none` (file skipped),
and exceptions of `scan_active_sessions` itself (none are caught there)
propagate to the caller of `scan`.
-/

set_option maxRecDepth 4096

namespace ClaudeCentral

/-- A parsed JSON value, as produced by `json.loads`: null, booleans, numbers
(the logs only carry integers, so numbers are modelled as `Int`), strings,
arrays, and objects as key/value sequences.  `json.loads` produces objects
with distinct keys (a duplicate key in the source text keeps the last value);
`lookupLast` below matches that convention. -/
inductive JVal where
  | jnull : JVal
  | jbool : Bool → JVal
  | jnum : Int → JVal
  | jstr : String → JVal
  | jarr : List JVal → JVal
  | jobj : List (String × JVal) → JVal

/-- Dictionary lookup: the last binding of a key wins (matching the value a
Python dict built by `json.loads` holds for that key). -/
def lookupLast (kvs : List (String × JVal)) (k : String) : Option JVal :=
  kvs.foldl (fun acc kv => if kv.1 = k then some kv.2 else acc) none

/-- Python `v.get(k, d)`: defined on dicts; on any other value the attribute
access raises (modelled as `Except.error`). -/
def pyGetE (v : JVal) (k : String) (d : JVal) : Except Unit JVal :=
  match v with
  | .jobj kvs => .ok ((lookupLast kvs k).getD d)
  | _ => .error ()

/-- Python `v.get(k)` (one-argument form, default `None`). -/
def pyGet1E (v : JVal) (k : String) : Except Unit JVal :=
  pyGetE v k .jnull

/-- Python `v == s` for a string literal `s`: true exactly when `v` is the
equal string (no cross-type coercion applies against a `str`). -/
def jEqStr : JVal → String → Bool
  | .jstr t, s => t == s
  | _, _ => false

/-- Python truthiness of a parsed JSON value. -/
def pyTruthy : JVal → Bool
  | .jnull => false
  | .jbool b => b
  | .jnum n => n != 0
  | .jstr s => s != ""
  | .jarr xs => !xs.isEmpty
  | .jobj kvs => !kvs.isEmpty

/-- Keys of a dict in first-occurrence order, each once (Python dict key
iteration order for a dict built left-to-right). -/
def dedupFirst (l : List String) : List String :=
  l.foldl (fun acc k => if k ∈ acc then acc else acc ++ [k]) []

/-- Python `len(v)`: defined on strings (code points), lists and dicts;
raises otherwise. -/
def pyLenE : JVal → Except Unit Nat
  | .jstr s => .ok s.length
  | .jarr xs => .ok xs.length
  | .jobj kvs => .ok (dedupFirst (kvs.map Prod.fst)).length
  | _ => .error ()

/-- Python `v[:n]`: defined on strings and lists; raises otherwise. -/
def pySliceE (v : JVal) (n : Nat) : Except Unit JVal :=
  match v with
  | .jstr s => .ok (.jstr (s.take n))
  | .jarr xs => .ok (.jarr (xs.take n))
  | _ => .error ()

/-- Python `a + b` as used by the preview construction: string or list
concatenation of like types; raises on a type mismatch. -/
def pyAddE (a b : JVal) : Except Unit JVal :=
  match a, b with
  | .jstr x, .jstr y => .ok (.jstr (x ++ y))
  | .jarr x, .jarr y => .ok (.jarr (x ++ y))
  | _, _ => .error ()

/-- Python `for item in v`: lists yield their items, strings their
one-character substrings, dicts their keys; other values raise. -/
def pyIterE : JVal → Except Unit (List JVal)
  | .jarr xs => .ok xs
  | .jstr s => .ok (s.data.map (fun c => .jstr c.toString))
  | .jobj kvs => .ok ((dedupFirst (kvs.map Prod.fst)).map .jstr)
  | _ => .error ()

/-- Whitespace stripped by Python `str.strip()` (ASCII portion). -/
def isPySpace (c : Char) : Bool :=
  c == ' ' || c == Char.ofNat 9 || c == Char.ofNat 10 || c == Char.ofNat 13 ||
  c == Char.ofNat 11 || c == Char.ofNat 12

/-- Python `str.strip()` on the character list of a string. -/
def pyStripChars (l : List Char) : List Char :=
  ((l.dropWhile isPySpace).reverse.dropWhile isPySpace).reverse

/-- Python `s.startswith(p)` via character lists. -/
def pyStartsWith (s p : String) : Bool :=
  p.data.isPrefixOf s.data

/-- Python `s.endswith(p)` via character lists. -/
def pyEndsWith (s p : String) : Bool :=
  p.data.isSuffixOf s.data

/-- Python `text.strip().endswith("?")` — the question heuristic applied
to the content of a text item (`server.py:495`). -/
def hasTrailingQ (t : String) : Bool :=
  pyEndsWith (String.mk (pyStripChars t.data)) "?"

/-- Python `v.strip()`: strings only; any other receiver raises. -/
def pyStripE : JVal → Except Unit String
  | .jstr s => .ok (String.mk (pyStripChars s.data))
  | _ => .error ()

/-- Python `s.split(sep)` for a one-character separator: split on every
occurrence; the empty string yields `[""]`, a leading/trailing separator
yields a leading/trailing empty segment. -/
def pySplitAux (c : Char) : List Char → List Char → List (List Char)
  | [], cur => [cur.reverse]
  | x :: xs, cur =>
    if x = c then cur.reverse :: pySplitAux c xs []
    else pySplitAux c xs (x :: cur)

/-- Python `s.split(c)` (single-character separator). -/
def pySplit (s : String) (c : Char) : List String :=
  (pySplitAux c s.data []).map String.mk

/-- Numeric value of a Python number for comparisons (`bool` is an `int`). -/
def pyBoolInt (b : Bool) : Int :=
  if b then 1 else 0

mutual

/-- Python `a == b` on parsed JSON values: `None` equals only `None`,
booleans and numbers compare numerically, strings as strings, lists
elementwise.  Dicts are compared as their parsed key/value sequences
(`json.loads` builds each dict with distinct keys in source order, so for
parser-produced values this matches Python dict equality up to key order). -/
def pyEq : JVal → JVal → Bool
  | .jnull, .jnull => true
  | .jbool a, .jbool b => a == b
  | .jbool a, .jnum b => pyBoolInt a == b
  | .jnum a, .jbool b => a == pyBoolInt b
  | .jnum a, .jnum b => a == b
  | .jstr a, .jstr b => a == b
  | .jarr a, .jarr b => pyEqList a b
  | .jobj a, .jobj b => pyEqObj a b
  | _, _ => false

/-- Elementwise equality of lists of parsed JSON values. -/
def pyEqList : List JVal → List JVal → Bool
  | [], [] => true
  | x :: xs, y :: ys => pyEq x y && pyEqList xs ys
  | _, _ => false

/-- Pairwise equality of key/value sequences. -/
def pyEqObj : List (String × JVal) → List (String × JVal) → Bool
  | [], [] => true
  | (k, v) :: xs, (l, w) :: ys => k == l && pyEq v w && pyEqObj xs ys
  | _, _ => false

end

/-- Python `a < b` on strings: lexicographic comparison of the code-point
sequences. -/
def pyCharsLt : List Char → List Char → Bool
  | [], [] => false
  | [], _ :: _ => true
  | _ :: _, [] => false
  | c :: cs, d :: ds => if c = d then pyCharsLt cs ds else decide (c < d)

mutual

/-- Python `a < b` on parsed JSON values: numbers (with booleans as 0/1)
compare numerically, strings lexicographically by code point, lists
lexicographically (equality first, then `<` on the first difference);
every other combination raises `TypeError`. -/
def pyLtE : JVal → JVal → Except Unit Bool
  | .jnum a, .jnum b => .ok (decide (a < b))
  | .jnum a, .jbool b => .ok (decide (a < pyBoolInt b))
  | .jbool a, .jnum b => .ok (decide (pyBoolInt a < b))
  | .jbool a, .jbool b => .ok (decide (pyBoolInt a < pyBoolInt b))
  | .jstr a, .jstr b => .ok (pyCharsLt a.data b.data)
  | .jarr a, .jarr b => pyLtListE a b
  | _, _ => .error ()

/-- Python lexicographic `<` on lists. -/
def pyLtListE : List JVal → List JVal → Except Unit Bool
  | [], [] => .ok false
  | [], _ :: _ => .ok true
  | _ :: _, [] => .ok false
  | x :: xs, y :: ys =>
    if pyEq x y then pyLtListE xs ys else pyLtE x y

end

/-- Character code 39 (single quote), used by `pyReprStr`. -/
def squoteChar : Char := Char.ofNat 39

/-- Character code 34 (double quote), used by `pyReprStr`. -/
def dquoteChar : Char := Char.ofNat 34

/-- Character code 92 (backslash), used by `pyReprStr`. -/
def backslashChar : Char := Char.ofNat 92

/-- One character of a Python string repr using quote character `q`
(common escapes; other characters pass through verbatim). -/
def pyEscChar (q c : Char) : String :=
  if c = backslashChar then String.mk [backslashChar, backslashChar]
  else if c = q then String.mk [backslashChar, q]
  else if c = Char.ofNat 10 then String.mk [backslashChar, 'n']
  else if c = Char.ofNat 13 then String.mk [backslashChar, 'r']
  else if c = Char.ofNat 9 then String.mk [backslashChar, 't']
  else c.toString

/-- Python `repr` of a string: single-quoted unless the string contains a
single quote and no double quote. -/
def pyReprStr (s : String) : String :=
  let q := if s.data.contains squoteChar && !(s.data.contains dquoteChar)
           then dquoteChar else squoteChar
  q.toString ++ String.join (s.data.map (pyEscChar q)) ++ q.toString

mutual

/-- Python `repr` of a parsed JSON value (as `str` shows it inside
containers). -/
def pyRepr : JVal → String
  | .jnull => "None"
  | .jbool true => "True"
  | .jbool false => "False"
  | .jnum n => toString n
  | .jstr s => pyReprStr s
  | .jarr xs => "[" ++ pyReprList xs ++ "]"
  | .jobj kvs => "\x7b" ++ pyReprObj kvs ++ "\x7d"

/-- Comma-separated reprs of list elements. -/
def pyReprList : List JVal → String
  | [] => ""
  | [x] => pyRepr x
  | x :: xs => pyRepr x ++ ", " ++ pyReprList xs

/-- Comma-separated reprs of dict entries. -/
def pyReprObj : List (String × JVal) → String
  | [] => ""
  | [(k, v)] => pyReprStr k ++ ": " ++ pyRepr v
  | (k, v) :: kvs => pyReprStr k ++ ": " ++ pyRepr v ++ ", " ++ pyReprObj kvs

end

/-- Python `str(v)` of a parsed JSON value: a string is shown verbatim,
anything else by its repr. -/
def pyStr : JVal → String
  | .jstr s => s
  | v => pyRepr v

/-! Times (`time.time()`, `st_mtime`, ages) are modelled in whole seconds
as `Int`.  The source computes float ages, but every decision about an age
is a comparison against the integer thresholds 300/600 followed by `int()`
truncation, so integer ages realize every behavior class. -/

/-! ## Data model of `_parse_session` and `scan_active_sessions` -/

/-- The `pending_approval` entry of a session snapshot (`server.py:477-488`). -/
structure PendingApproval where
  type : String
  tool_name : JVal
  description : JVal

/-- The `last_tool` entry of a session snapshot (`server.py:489,514-517`). -/
structure LastTool where
  name : JVal
  timestamp : JVal

/-- The dict built and returned by `_parse_session` (`server.py:524-535`). -/
structure Snapshot where
  session_id : JVal
  project_path : String
  project_name : String
  state : String
  last_activity : JVal
  idle_seconds : Int
  model : JVal
  last_tool : Option LastTool
  last_message_preview : JVal
  pending_approval : Option PendingApproval

/-- The mutable locals of the assistant content loop (`server.py:452-496`):
`state`, `pending_approval`, `last_tool`, `last_message_preview`,
`has_question`. -/
structure LoopAcc where
  state : String
  pa : Option PendingApproval
  ltool : Option LastTool
  preview : JVal
  hasQ : Bool

/-- One log file: name, last-modified time (seconds) and the parsed lines
(`none` for a line `json.loads` rejects). -/
structure LogFile where
  name : String
  mtime : Int
  lines : List (Option JVal)

/-- One immediate subdirectory of the scan root, with its files in
enumeration order. -/
structure ProjectDir where
  name : String
  files : List LogFile

/-- A snapshot of the scanned filesystem: whether the root directory
exists, and its subdirectories in enumeration order (non-directory entries
of the root are skipped by `scan_active_sessions` and hence omitted). -/
structure Filesystem where
  rootExists : Bool
  dirs : List ProjectDir

/-- The `result` dict of `scan_active_sessions` (`server.py:371-377`). -/
structure ScanReport where
  timestamp : String
  active_sessions : List Snapshot
  waiting_count : Nat
  processing_count : Nat
  projects_with_waiting : List String

/-- Constant `RealtimeScanner.ACTIVE_THRESHOLD_SECONDS` (`server.py:364`). -/
def ACTIVE_THRESHOLD_SECONDS : Int := 600

/-- Constant `RealtimeScanner.IDLE_THRESHOLD_SECONDS` (`server.py:366`). -/
def IDLE_THRESHOLD_SECONDS : Int := 300

/-! ## Per-file classification (`_parse_session`) -/

/-- The assistant content loop (`server.py:467-496`).  In source order:
a dict item of type `tool_use` sets the state (question tool vs any other
tool), records `last_tool` and breaks; a dict item of type `text` updates
the preview and the `has_question` flag; every other item is ignored.
The eager Python evaluation of
`tool_input.get("description", tool_input.get("command", "")[:100])`
(the fallback is computed before the lookup) is kept. -/
def processItems (e : JVal) : List JVal → LoopAcc → Except Unit LoopAcc
  | [], acc => .ok acc
  | item :: rest, acc =>
    match item with
    | .jobj kvs => do
      let ty := (lookupLast kvs "type").getD .jnull
      if jEqStr ty "tool_use" then do
        let tool_name := (lookupLast kvs "name").getD (.jstr "Unknown")
        let tool_input := (lookupLast kvs "input").getD (.jobj [])
        let (st, pa, hq) ←
          if jEqStr tool_name "AskUserQuestion" then do
            let questions ← pyGetE tool_input "questions" (.jarr [])
            pure ("waiting_for_question",
              some ⟨"question", tool_name, .jstr ((pyStr questions).take 100)⟩,
              true)
          else do
            let cmd ← pyGetE tool_input "command" (.jstr "")
            let cmdSliced ← pySliceE cmd 100
            let desc ← pyGetE tool_input "description" cmdSliced
            pure ("waiting_for_approval",
              some ⟨"tool_use", tool_name, desc⟩,
              acc.hasQ)
        let ts ← pyGet1E e "timestamp"
        .ok ⟨st, pa, some ⟨tool_name, ts⟩, acc.preview, hq⟩
      else if jEqStr ty "text" then do
        let text := (lookupLast kvs "text").getD (.jstr "")
        let n ← pyLenE text
        let preview ←
          if n > 150 then do
            let sl ← pySliceE text 150
            pyAddE sl (.jstr "...")
          else pure text
        let stripped ← pyStripE text
        let hq := acc.hasQ || pyEndsWith stripped "?"
        processItems e rest ⟨acc.state, acc.pa, acc.ltool, preview, hq⟩
      else processItems e rest acc
    | _ => processItems e rest acc

/-- State determination of `_parse_session` (`server.py:452-501`): the
idle-threshold override, then the `user`/`assistant`/other branch on the
entry type, with the post-loop question/complete resolution for assistant
entries. -/
def stateEtc (age : Int) (ety e : JVal) : Except Unit LoopAcc :=
  if age > IDLE_THRESHOLD_SECONDS then
    .ok ⟨"idle", none, none, .jstr "", false⟩
  else if jEqStr ety "user" then
    .ok ⟨"processing", none, none, .jstr "", false⟩
  else if jEqStr ety "assistant" then do
    let message ← pyGetE e "message" (.jobj [])
    let content ← pyGetE message "content" (.jarr [])
    let items ← pyIterE content
    let acc ← processItems e items ⟨"unknown", none, none, .jstr "", false⟩
    let st :=
      if acc.state = "unknown" then
        if acc.hasQ then "waiting_for_question" else "task_complete"
      else acc.state
    .ok ⟨st, acc.pa, acc.ltool, acc.preview, acc.hasQ⟩
  else
    .ok ⟨"unknown", none, none, .jstr "", false⟩

/-- True for a dict item whose `type` is `tool_use` (the condition of the
lookback inner loop, `server.py:513`). -/
def isToolUse : JVal → Bool
  | .jobj kvs => jEqStr ((lookupLast kvs "type").getD .jnull) "tool_use"
  | _ => false

/-- Python `item.get("name", "Unknown")` on a content item. -/
def jName : JVal → JVal
  | .jobj kvs => (lookupLast kvs "name").getD (.jstr "Unknown")
  | _ => .jstr "Unknown"

/-- True for a dict item whose `type` is `text` (the second arm of the
content loop, `server.py:491`). -/
def isTextItem : JVal → Bool
  | .jobj kvs => jEqStr ((lookupLast kvs "type").getD .jnull) "text"
  | _ => false

/-- True for a text item whose string content, stripped, ends with a
question mark — the condition under which the content loop sets the
`has_question` flag (`server.py:491-496`). -/
def isTextQ : JVal → Bool
  | .jobj kvs =>
    jEqStr ((lookupLast kvs "type").getD .jnull) "text" &&
    (match (lookupLast kvs "text").getD (.jstr "") with
     | .jstr t => hasTrailingQ t
     | _ => false)
  | _ => false

/-- One line of the lookback loop (`server.py:508-522`): parse the line,
and if it is an assistant entry take the first `tool_use` content item;
any exception is caught by the per-line `except` (the caller skips the
line). -/
def lookbackLine (ln : Option JVal) : Except Unit (Option LastTool) := do
  match ln with
  | none => .error ()
  | some entry => do
    let ty ← pyGet1E entry "type"
    if jEqStr ty "assistant" then do
      let msg ← pyGetE entry "message" (.jobj [])
      let content ← pyGetE msg "content" (.jarr [])
      let items ← pyIterE content
      match items.find? isToolUse with
      | some it => do
        let ts ← pyGet1E entry "timestamp"
        .ok (some ⟨jName it, ts⟩)
      | none => .ok none
    else .ok none

/-- The lookback loop over lines in most-recent-first order: first line
that yields a `tool_use` wins; lines that raise are skipped. -/
def lookback : List (Option JVal) → Option LastTool
  | [] => none
  | ln :: rest =>
    match lookbackLine ln with
    | .ok (some t) => some t
    | _ => lookback rest

/-- Python `lines[-n:]`. -/
def lastN (n : Nat) (l : List α) : List α :=
  l.drop (l.length - n)

/-- Function `_parse_session` before its surrounding `try/except`
(`server.py:437-535`): empty file returns `None`; the last line is parsed
(a parse failure raises); the state is derived; `model` and
`last_activity` are read with their defaults; the bounded lookback runs
when the last entry produced no `last_tool`. -/
def parseSessionE (lines : List (Option JVal)) (stem pn pp : String)
    (age : Int) : Except Unit (Option Snapshot) :=
  match lines.getLast? with
  | none => .ok none
  | some none => .error ()
  | some (some e) => do
    let ety ← pyGetE e "type" (.jstr "unknown")
    let sid ← pyGetE e "sessionId" (.jstr stem)
    let acc ← stateEtc age ety e
    let msg2 ← pyGetE e "message" (.jobj [])
    let model ← pyGetE msg2 "model" (.jstr "unknown")
    let ltool :=
      match acc.ltool with
      | some t => some t
      | none => lookback (lastN 10 lines).reverse
    let la ← pyGet1E e "timestamp"
    .ok (some
      { session_id := sid
        project_path := pp
        project_name := pn
        state := acc.state
        last_activity := la
        idle_seconds := age
        model := model
        last_tool := ltool
        last_message_preview := acc.preview
        pending_approval := acc.pa })

/-- Function `_parse_session` with its `try/except` (`server.py:537-540`): any
exception yields `None` and the file is skipped. -/
def parseSession (lines : List (Option JVal)) (stem pn pp : String)
    (age : Int) : Option Snapshot :=
  match parseSessionE lines stem pn pp age with
  | .ok r => r
  | .error _ => none

/-! ## Directory scan (`scan_active_sessions`) -/

/-- Project name/path derivation from a directory name
(`server.py:390-398`). -/
def projectInfo (dn : String) : String × String :=
  if pyStartsWith dn "-" then
    let parts := pySplit dn '-'
    (parts.getLastD dn,
     if parts.length > 1 then "/" ++ String.intercalate "/" parts.tail
     else dn)
  else (dn, dn)

/-- Python `Path.stem` of a `*.jsonl` file name: the name minus its
`.jsonl` suffix.  A name whose only dot is the leading one (the name
`.jsonl` itself) has no suffix, so its stem is the whole name. -/
def stemJsonl (n : String) : String :=
  if pyEndsWith n ".jsonl" ∧ n ≠ ".jsonl" then
    String.mk (n.data.take (n.data.length - 6))
  else n

/-- The running aggregate of `scan_active_sessions`: the appended
snapshots and the three counters. -/
structure Agg where
  sessions : List Snapshot
  waiting : Nat
  processing : Nat
  projectsWaiting : List String

/-- Accumulation of one snapshot (`server.py:417-425`): append, then count
waiting states (deduplicating the waiting-project names, first seen
first), else count `processing`. -/
def addSession (pname : String) (a : Agg) (s : Snapshot) : Agg :=
  let a := { a with sessions := a.sessions ++ [s] }
  if s.state = "waiting_for_question" ∨ s.state = "waiting_for_approval" then
    { a with
      waiting := a.waiting + 1
      projectsWaiting :=
        if pname ∈ a.projectsWaiting then a.projectsWaiting
        else a.projectsWaiting ++ [pname] }
  else if s.state = "processing" then
    { a with processing := a.processing + 1 }
  else a

/-- Per-file step of the scan (`server.py:401-425`): `glob("*.jsonl")`
(`pathlib.Path.glob` matches every name ending in `.jsonl`, hidden files
included), the `agent-` exclusion, the active-threshold age filter, then
classification and accumulation. -/
def fileStep (now : Int) (pname ppath : String) (a : Agg) (f : LogFile) : Agg :=
  if !pyEndsWith f.name ".jsonl" then a
  else if pyStartsWith f.name "agent-" then a
  else
    let age := now - f.mtime
    if age > ACTIVE_THRESHOLD_SECONDS then a
    else
      match parseSession f.lines (stemJsonl f.name) pname ppath age with
      | some s => addSession pname a s
      | none => a

/-- Per-directory step of the scan (`server.py:384-425`). -/
def dirStep (now : Int) (a : Agg) (d : ProjectDir) : Agg :=
  let info := projectInfo d.name
  d.files.foldl (fileStep now info.1 info.2) a

/-- The aggregate over all project directories. -/
def scanAgg (fs : Filesystem) (now : Int) : Agg :=
  fs.dirs.foldl (dirStep now) ⟨[], 0, 0, []⟩

/-- The sort key of `server.py:429`: `x.get("last_activity") or ""`. -/
def sortKey (s : Snapshot) : JVal :=
  if pyTruthy s.last_activity then s.last_activity else .jstr ""

/-- One insertion step of the final sort (stable, descending by key, as
`list.sort(key=..., reverse=True)` orders): the new element goes before
the first element whose key is not greater; a `TypeError` from comparing
incomparable keys propagates. -/
def insertDescE (x : Snapshot) : List Snapshot → Except Unit (List Snapshot)
  | [] => .ok [x]
  | y :: ys => do
    let lt ← pyLtE (sortKey x) (sortKey y)
    if lt then do
      let r ← insertDescE x ys
      .ok (y :: r)
    else .ok (x :: y :: ys)

/-- The final sort of `server.py:427-430`, modelled as a stable insertion
sort by the Python comparison on keys.  On lists whose keys are pairwise
comparable (in particular the intended all-string case) this is exactly
the `list.sort(key=..., reverse=True)` result; on incomparable keys it
raises, as CPython does, though the exact set of key pairs CPython's sort
compares before raising may differ. -/
def pySortDescE : List Snapshot → Except Unit (List Snapshot)
  | [] => .ok []
  | x :: xs => do
    let r ← pySortDescE xs
    insertDescE x r

/-- Function `scan_active_sessions` (`server.py:368-432`).  `now` is the wall
clock of `time.time()`, `ts` the report timestamp string; an uncaught
exception (only the sort can raise one) is the `Except.error` case. -/
def scan (fs : Filesystem) (now : Int) (ts : String) : Except Unit ScanReport :=
  if fs.rootExists then
    let agg := scanAgg fs now
    match pySortDescE agg.sessions with
    | .ok sorted =>
      .ok ⟨ts, sorted, agg.waiting, agg.processing, agg.projectsWaiting⟩
    | .error e => .error e
  else .ok ⟨ts, [], 0, 0, []⟩


/-- True when a snapshot's `last_activity` is a string or absent —
the shape §3 of the spec gives that field (`raw string from the log,
may be absent`). -/
def laStrOrNull (s : Snapshot) : Bool :=
  match s.last_activity with
  | .jstr _ => true
  | .jnull => true
  | _ => false

/-- The effective string sort key of a snapshot: its `last_activity`
string, or `""` when absent. -/
def keyStr (s : Snapshot) : String :=
  match s.last_activity with
  | .jstr t => t
  | _ => ""

/-- The sequence is sorted by last-activity key, most recent (largest)
first. -/
def keySortedDesc (l : List Snapshot) : Prop :=
  List.Pairwise (fun a b => keyStr b ≤ keyStr a) l

/-- No snapshot with an absent `last_activity` precedes one with a
non-empty `last_activity`. -/
def absentAfterPresent (l : List Snapshot) : Prop :=
  List.Pairwise
    (fun a b => ¬(a.last_activity = JVal.jnull ∧
      ∃ t, b.last_activity = JVal.jstr t ∧ t ≠ "")) l



/-- The projection of a report that the timestamp does not touch. -/
def reportData (r : ScanReport) : List Snapshot × Nat × Nat × List String :=
  (r.active_sessions, r.waiting_count, r.processing_count, r.projects_with_waiting)



/-! ## Concrete fixtures and claim-side definitions -/

/-- A `Bash` tool-use content item with a `command` input. -/
def itemBash : JVal := .jobj [("type", .jstr "tool_use"), ("name", .jstr "Bash"),
  ("input", .jobj [("command", .jstr "ls -la")])]

/-- An `AskUserQuestion` tool-use content item. -/
def itemAsk : JVal := .jobj [("type", .jstr "tool_use"),
  ("name", .jstr "AskUserQuestion"), ("input", .jobj [])]

/-- The last log entry of the C1 scenario. -/
def entryC1 : JVal := .jobj [("type", .jstr "assistant"),
  ("message", .jobj [("content", .jarr [itemBash])])]

/-- The C1 scenario filesystem: one project directory `-Users-alice-proj`
holding one log file modified 60 seconds before the scan. -/
def fsC1 : Filesystem := ⟨true, [⟨"-Users-alice-proj", [⟨"s1.jsonl", 0, [some entryC1]⟩]⟩]⟩

/-- The snapshot the C1 scenario produces. -/
def snapC1 : Snapshot :=
  { session_id := .jstr "s1", project_path := "/Users/alice/proj",
    project_name := "proj", state := "waiting_for_approval",
    last_activity := .jnull, idle_seconds := 60, model := .jstr "unknown",
    last_tool := some ⟨.jstr "Bash", .jnull⟩, last_message_preview := .jstr "",
    pending_approval := some ⟨"tool_use", .jstr "Bash", .jstr "ls -la"⟩ }

/-- An assistant entry whose content holds a `Bash` tool use first and an
`AskUserQuestion` tool use second. -/
def entryC4ce : JVal := .jobj [("type", .jstr "assistant"),
  ("message", .jobj [("content", .jarr [itemBash, itemAsk])])]

/-- An assistant entry whose only content item is `AskUserQuestion`. -/
def wEntryAsk : JVal := .jobj [("type", .jstr "assistant"),
  ("message", .jobj [("content", .jarr [itemAsk])])]

/-- Snapshot of the `AskUserQuestion`-only entry. -/
def wSnapC4 : Snapshot :=
  { session_id := .jstr "s1", project_path := "/p", project_name := "p",
    state := "waiting_for_question", last_activity := .jnull,
    idle_seconds := 60, model := .jstr "unknown",
    last_tool := some ⟨.jstr "AskUserQuestion", .jnull⟩,
    last_message_preview := .jstr "",
    pending_approval := some ⟨"question", .jstr "AskUserQuestion", .jstr "[]"⟩ }

/-- A text content item. -/
def wTextItem (t : String) : JVal := .jobj [("type", .jstr "text"), ("text", .jstr t)]

/-- An assistant entry whose only content item is the text `t`. -/
def wTextEntry (t : String) : JVal := .jobj [("type", .jstr "assistant"),
  ("message", .jobj [("content", .jarr [wTextItem t])])]

/-- Snapshot of a text-only assistant entry in state `st`. -/
def wSnapText (t st : String) : Snapshot :=
  { session_id := .jstr "s1", project_path := "/p", project_name := "p",
    state := st, last_activity := .jnull, idle_seconds := 60,
    model := .jstr "unknown", last_tool := none,
    last_message_preview := .jstr t, pending_approval := none }

/-- Snapshot used by the C3 witness (any JSON-object entry, age 400). -/
def wSnapC3 : Snapshot :=
  { session_id := .jstr "s1", project_path := "/p", project_name := "p",
    state := "idle", last_activity := .jnull, idle_seconds := 400,
    model := .jstr "unknown", last_tool := none,
    last_message_preview := .jstr "", pending_approval := none }

/-- An entry carrying only a string timestamp. -/
def wEntryT (t : String) : JVal := .jobj [("timestamp", .jstr t)]

/-- Two fresh sessions with string timestamps, in ascending file order. -/
def wFsC6 : Filesystem := ⟨true, [⟨"p",
  [⟨"a.jsonl", 0, [some (wEntryT "2025-06-01T10:00:01")]⟩,
   ⟨"b.jsonl", 0, [some (wEntryT "2025-06-01T10:00:02")]⟩]⟩]⟩

/-- Snapshot of the timestamp-only entry with stem `stem`. -/
def wSnapC6 (stem t : String) : Snapshot :=
  { session_id := .jstr stem, project_path := "p", project_name := "p",
    state := "unknown", last_activity := .jstr t, idle_seconds := 0,
    model := .jstr "unknown", last_tool := none,
    last_message_preview := .jstr "", pending_approval := none }

/-- The report of scanning `wFsC6`: most recent session first. -/
def wRepC6 : ScanReport :=
  ⟨"T", [wSnapC6 "b" "2025-06-01T10:00:02", wSnapC6 "a" "2025-06-01T10:00:01"],
   0, 0, []⟩

/-- An entry whose timestamp is a number. -/
def wEntryNum : JVal := .jobj [("timestamp", .jnum 1)]

/-- An entry whose timestamp is a string. -/
def wEntryStr : JVal := .jobj [("timestamp", .jstr "x")]

/-- Two fresh sessions whose truthy sort keys have incomparable types. -/
def wFsC8 : Filesystem := ⟨true, [⟨"p",
  [⟨"a.jsonl", 0, [some wEntryNum]⟩, ⟨"b.jsonl", 0, [some wEntryStr]⟩]⟩]⟩

/-- A content item of an unrecognized type. -/
def wItemC10 : JVal := .jobj [("type", .jstr "thinking")]

/-- An assistant entry whose only content item has an unrecognized type. -/
def wEntryC10 : JVal := .jobj [("type", .jstr "assistant"),
  ("message", .jobj [("content", .jarr [wItemC10])])]

/-- The project name the spec sentence of C7 describes: the last non-empty
segment of the '-'-split of the directory name, or the whole name when
there are no segments. -/
def specProjectName (dn : String) : String :=
  match ((pySplit dn '-').filter (fun p => p ≠ "")).getLast? with
  | some seg => seg
  | none => dn

/-- The amended C7 reading of the source: the name is the LAST segment of
the split (which is empty when the directory name ends in the delimiter),
and the path joins the segments after the first (the split of a name
starting with the delimiter always has at least two segments). -/
def amendedProjectInfo (dn : String) : String × String :=
  let parts := pySplit dn '-'
  (parts.getLastD dn,
   if parts.length > 1 then "/" ++ String.intercalate "/" parts.tail else dn)


/-! ## Helper lemmas -/


/-- Items that are neither tool_use nor text dicts are ignored by the
content loop. -/
theorem processItems_skip {e : JVal} {l : List JVal}
    (hl : ∀ it ∈ l, isToolUse it = false ∧ isTextItem it = false) :
    ∀ acc, processItems e l acc = .ok acc := by
  induction l with
  | nil => intro acc; rfl
  | cons item rest ih =>
    intro acc
    have hitem := hl item (List.mem_cons_self _ _)
    have hrest : ∀ it ∈ rest, isToolUse it = false ∧ isTextItem it = false :=
      fun it hit => hl it (List.mem_cons_of_mem _ hit)
    cases item with
    | jobj kvs =>
      have h1 : jEqStr ((lookupLast kvs "type").getD .jnull) "tool_use" = false := hitem.1
      have h2 : jEqStr ((lookupLast kvs "type").getD .jnull) "text" = false := hitem.2
      simp only [processItems, h1, h2, Bool.false_eq_true, if_false]
      exact ih hrest acc
    | jnull => exact ih hrest acc
    | jbool b => exact ih hrest acc
    | jnum n => exact ih hrest acc
    | jstr t => exact ih hrest acc
    | jarr xs => exact ih hrest acc

/-- Over a run of non-`tool_use` items the content loop leaves `state`,
`pending_approval` and `last_tool` unchanged and accumulates the
question flag of the text items it processes successfully. -/
theorem processItems_no_tool {e : JVal} {l : List JVal}
    (hl : ∀ it ∈ l, isToolUse it = false) :
    ∀ acc acc2, processItems e l acc = .ok acc2 →
      acc2.state = acc.state ∧ acc2.pa = acc.pa ∧ acc2.ltool = acc.ltool ∧
      acc2.hasQ = (acc.hasQ || l.any isTextQ) := by
  induction l with
  | nil =>
    intro acc acc2 h
    injection h with h
    subst h
    simp
  | cons item rest ih =>
    intro acc acc2 h
    have hitem := hl item (List.mem_cons_self _ _)
    have hrest : ∀ it ∈ rest, isToolUse it = false :=
      fun it hit => hl it (List.mem_cons_of_mem _ hit)
    have hany : (item :: rest).any isTextQ = (isTextQ item || rest.any isTextQ) :=
      List.any_cons
    cases item with
    | jobj kvs =>
      have h1 : jEqStr ((lookupLast kvs "type").getD .jnull) "tool_use" = false := hitem
      simp only [processItems, h1, Bool.false_eq_true, if_false] at h
      by_cases h2 : jEqStr ((lookupLast kvs "type").getD .jnull) "text" = true
      · simp only [h2, if_true] at h
        simp only [bind, Except.bind] at h
        cases htx : (lookupLast kvs "text").getD (.jstr "") with
        | jstr t =>
          rw [htx] at h
          simp only [pyLenE, pyStripE] at h
          split at h
          · -- length > 150 branch
            simp only [pySliceE, pyAddE] at h
            obtain ⟨hst, hpa, hlt, hq⟩ := ih hrest _ _ h
            refine ⟨hst, hpa, hlt, ?_⟩
            rw [hq, hany]
            have : isTextQ (.jobj kvs) = hasTrailingQ t := by
              simp only [isTextQ, h2, htx, Bool.true_and]
            rw [this]
            simp only [hasTrailingQ, Bool.or_assoc]
          · obtain ⟨hst, hpa, hlt, hq⟩ := ih hrest _ _ h
            refine ⟨hst, hpa, hlt, ?_⟩
            rw [hq, hany]
            have : isTextQ (.jobj kvs) = hasTrailingQ t := by
              simp only [isTextQ, h2, htx, Bool.true_and]
            rw [this]
            simp only [hasTrailingQ, Bool.or_assoc]
        | jnull => rw [htx] at h; simp [pyLenE, bind, Except.bind] at h
        | jbool b => rw [htx] at h; simp [pyLenE, bind, Except.bind] at h
        | jnum n => rw [htx] at h; simp [pyLenE, bind, Except.bind] at h
        | jarr xs =>
          rw [htx] at h
          simp only [pyLenE, pyStripE] at h
          split at h <;> simp [pySliceE, pyAddE, bind, Except.bind, pure, Except.pure] at h
        | jobj mkvs =>
          rw [htx] at h
          simp only [pyLenE, pyStripE] at h
          split at h <;> simp [pySliceE, pyAddE, bind, Except.bind, pure, Except.pure] at h
      · simp only [h2, if_false] at h
        obtain ⟨hst, hpa, hlt, hq⟩ := ih hrest _ _ h
        have h2f : jEqStr ((lookupLast kvs "type").getD .jnull) "text" = false :=
          Bool.not_eq_true _ ▸ by simpa using h2
        refine ⟨hst, hpa, hlt, ?_⟩
        rw [hq, hany]
        have : isTextQ (.jobj kvs) = false := by
          simp only [isTextQ, h2f, Bool.false_and]
        rw [this, Bool.false_or]
    | jnull =>
      obtain ⟨hst, hpa, hlt, hq⟩ := ih hrest _ _ h
      exact ⟨hst, hpa, hlt, by rw [hq, hany]; rfl⟩
    | jbool b =>
      obtain ⟨hst, hpa, hlt, hq⟩ := ih hrest _ _ h
      exact ⟨hst, hpa, hlt, by rw [hq, hany]; rfl⟩
    | jnum n =>
      obtain ⟨hst, hpa, hlt, hq⟩ := ih hrest _ _ h
      exact ⟨hst, hpa, hlt, by rw [hq, hany]; rfl⟩
    | jstr t =>
      obtain ⟨hst, hpa, hlt, hq⟩ := ih hrest _ _ h
      exact ⟨hst, hpa, hlt, by rw [hq, hany]; rfl⟩
    | jarr xs =>
      obtain ⟨hst, hpa, hlt, hq⟩ := ih hrest _ _ h
      exact ⟨hst, hpa, hlt, by rw [hq, hany]; rfl⟩



/-- A successful classification determines the last entry, its type value
and a successful state computation, whose `state`, `pending_approval` and
preview fields the snapshot carries verbatim. -/
theorem parseSession_some_elim {lines : List (Option JVal)} {stem pn pp : String}
    {age : Int} {s : Snapshot}
    (h : parseSession lines stem pn pp age = some s) :
    ∃ e ety acc,
      lines.getLast? = some (some e) ∧
      pyGetE e "type" (.jstr "unknown") = .ok ety ∧
      stateEtc age ety e = .ok acc ∧
      s.state = acc.state ∧ s.pending_approval = acc.pa ∧
      s.last_message_preview = acc.preview := by
  unfold parseSession at h
  split at h
  case _ r heq =>
    subst h
    unfold parseSessionE at heq
    split at heq
    · simp at heq
    · simp at heq
    case _ e he =>
      simp only [bind, Except.bind] at heq
      split at heq
      · simp at heq
      case _ ety h1 =>
        split at heq
        · simp at heq
        case _ sid h2 =>
          split at heq
          · simp at heq
          case _ acc h3 =>
            split at heq
            · simp at heq
            case _ msg2 h4 =>
              split at heq
              · simp at heq
              case _ model h5 =>
                split at heq
                · simp at heq
                case _ la h6 =>
                  injection heq with heq
                  injection heq with heq
                  exact ⟨e, ety, acc, he, h1, h3, by rw [← heq], by rw [← heq], by rw [← heq]⟩
  case _ heq => simp at h

/-- Ages beyond the idle threshold force the idle state regardless of the
entry (`server.py:457-458`). -/
theorem stateEtc_idle {age : Int} {ety e : JVal}
    (hage : age > IDLE_THRESHOLD_SECONDS) :
    stateEtc age ety e = .ok ⟨"idle", none, none, .jstr "", false⟩ := by
  unfold stateEtc
  rw [if_pos hage]

/-- The assistant branch of the state computation runs the content loop on
the message content and resolves the post-loop question/complete choice. -/
theorem stateEtc_assistant_elim {age : Int} {kvs mkvs : List (String × JVal)}
    {items : List JVal} {acc2 : LoopAcc}
    (hage : ¬ age > IDLE_THRESHOLD_SECONDS)
    (hmsg : (lookupLast kvs "message").getD (.jobj []) = .jobj mkvs)
    (hcont : (lookupLast mkvs "content").getD (.jarr []) = .jarr items)
    (h : stateEtc age (.jstr "assistant") (.jobj kvs) = .ok acc2) :
    ∃ accL,
      processItems (.jobj kvs) items ⟨"unknown", none, none, .jstr "", false⟩ = .ok accL ∧
      acc2.state = (if accL.state = "unknown" then
          (if accL.hasQ then "waiting_for_question" else "task_complete")
        else accL.state) ∧
      acc2.pa = accL.pa ∧ acc2.preview = accL.preview := by
  unfold stateEtc at h
  rw [if_neg hage] at h
  rw [show jEqStr (.jstr "assistant") "user" = false from by decide] at h
  rw [show jEqStr (.jstr "assistant") "assistant" = true from by decide] at h
  simp only [Bool.false_eq_true, if_false, if_true, bind, Except.bind, pyGetE] at h
  rw [hmsg] at h
  dsimp only at h
  rw [hcont] at h
  dsimp only [pyIterE] at h
  split at h
  · simp at h
  case _ accL hL =>
    injection h with h
    exact ⟨accL, hL, by rw [← h], by rw [← h], by rw [← h]⟩

/-- A leading `tool_use` item named `AskUserQuestion` that processes
without error sets the waiting-for-question state with a question-type
pending approval and stops the loop. -/
theorem processItems_cons_ask {e item : JVal} {rest : List JVal} {acc acc2 : LoopAcc}
    (hitem : isToolUse item = true) (hname : jName item = .jstr "AskUserQuestion")
    (h : processItems e (item :: rest) acc = .ok acc2) :
    acc2.state = "waiting_for_question" ∧
    ∃ pa, acc2.pa = some pa ∧ pa.type = "question" := by
  cases item with
  | jobj kvs =>
    have h1 : jEqStr ((lookupLast kvs "type").getD .jnull) "tool_use" = true := hitem
    have h2 : (lookupLast kvs "name").getD (.jstr "Unknown") = .jstr "AskUserQuestion" := hname
    simp only [processItems, h1, if_true, h2] at h
    rw [show jEqStr (.jstr "AskUserQuestion") "AskUserQuestion" = true from by decide] at h
    simp only [if_true, bind, Except.bind, pure, Except.pure] at h
    split at h
    · simp at h
    case _ q hq =>
      split at h
      · simp at h
      case _ ts hts =>
        injection h with h
        exact ⟨by rw [← h], ⟨_, by rw [← h], rfl⟩⟩
  | jnull => simp [isToolUse] at hitem
  | jbool b => simp [isToolUse] at hitem
  | jnum n => simp [isToolUse] at hitem
  | jstr t => simp [isToolUse] at hitem
  | jarr xs => simp [isToolUse] at hitem

/-- When every item before the first `tool_use` item is not a `tool_use`
and that first `tool_use` item is named `AskUserQuestion`, a successful
run of the content loop ends waiting for a question. -/
theorem processItems_pre_ask {e item : JVal} {rest : List JVal}
    (hitem : isToolUse item = true) (hname : jName item = .jstr "AskUserQuestion") :
    ∀ (pre : List JVal), (∀ it ∈ pre, isToolUse it = false) →
    ∀ acc acc2, processItems e (pre ++ item :: rest) acc = .ok acc2 →
      acc2.state = "waiting_for_question" ∧
      ∃ pa, acc2.pa = some pa ∧ pa.type = "question" := by
  intro pre
  induction pre with
  | nil => intro _ acc acc2 h; exact processItems_cons_ask hitem hname h
  | cons p pre' ih =>
    intro hpre acc acc2 h
    have hp := hpre p (List.mem_cons_self _ _)
    have hpre' : ∀ it ∈ pre', isToolUse it = false :=
      fun it hit => hpre it (List.mem_cons_of_mem _ hit)
    cases p with
    | jobj kvs =>
      have h1 : jEqStr ((lookupLast kvs "type").getD .jnull) "tool_use" = false := hp
      rw [List.cons_append] at h
      simp only [processItems, h1, Bool.false_eq_true, if_false] at h
      by_cases h2 : jEqStr ((lookupLast kvs "type").getD .jnull) "text" = true
      · simp only [h2, if_true] at h
        simp only [bind, Except.bind] at h
        cases htx : (lookupLast kvs "text").getD (.jstr "") with
        | jstr t =>
          rw [htx] at h
          simp only [pyLenE, pyStripE] at h
          split at h
          · simp only [pySliceE, pyAddE] at h
            exact ih hpre' _ _ h
          · exact ih hpre' _ _ h
        | jnull => rw [htx] at h; simp [pyLenE, bind, Except.bind] at h
        | jbool b => rw [htx] at h; simp [pyLenE, bind, Except.bind] at h
        | jnum n => rw [htx] at h; simp [pyLenE, bind, Except.bind] at h
        | jarr xs =>
          rw [htx] at h
          simp only [pyLenE, pyStripE] at h
          split at h <;> simp [pySliceE, pyAddE, bind, Except.bind, pure, Except.pure] at h
        | jobj mkvs =>
          rw [htx] at h
          simp only [pyLenE, pyStripE] at h
          split at h <;> simp [pySliceE, pyAddE, bind, Except.bind, pure, Except.pure] at h
      · simp only [h2, if_false] at h
        exact ih hpre' _ _ h
    | jnull => exact ih hpre' _ _ h
    | jbool b => exact ih hpre' _ _ h
    | jnum n => exact ih hpre' _ _ h
    | jstr t => exact ih hpre' _ _ h
    | jarr xs => exact ih hpre' _ _ h


theorem pyCharsLt_iff : ∀ l1 l2 : List Char, pyCharsLt l1 l2 = true ↔ l1 < l2 := by
  intro l1
  induction l1 with
  | nil =>
    intro l2
    cases l2 with
    | nil =>
      simp only [pyCharsLt, Bool.false_eq_true, false_iff]
      rintro ⟨⟩
    | cons d ds =>
      simp only [pyCharsLt, true_iff]
      exact List.nil_lt_cons d ds
  | cons c cs ih =>
    intro l2
    cases l2 with
    | nil =>
      simp only [pyCharsLt, Bool.false_eq_true, false_iff]
      rintro ⟨⟩
    | cons d ds =>
      by_cases hcd : c = d
      · subst hcd
        have hred : pyCharsLt (c :: cs) (c :: ds) = pyCharsLt cs ds := by
          simp [pyCharsLt]
        rw [hred, ih ds]
        constructor
        · exact fun h => List.Lex.cons h
        · intro h
          cases h with
          | cons h => exact h
          | rel h => exact absurd h (lt_irrefl c)
      · have hred : pyCharsLt (c :: cs) (d :: ds) = decide (c < d) := by
          simp [pyCharsLt, hcd]
        rw [hred, decide_eq_true_eq]
        constructor
        · exact fun h => List.Lex.rel h
        · intro h
          cases h with
          | cons h => exact absurd rfl hcd
          | rel h => exact h

theorem pyCharsLt_eq_decide (a b : String) :
    pyCharsLt a.data b.data = decide (a < b) := by
  by_cases h : a < b
  · rw [decide_eq_true h]
    exact (pyCharsLt_iff a.data b.data).mpr
      (by rw [String.lt_iff_toList_lt] at h; exact h)
  · rw [decide_eq_false h]
    rw [← Bool.not_eq_true]
    intro hc
    exact h (by rw [String.lt_iff_toList_lt]; exact (pyCharsLt_iff a.data b.data).mp hc)

theorem empty_of_le_empty {t : String} (h : t ≤ "") : t = "" := by
  by_contra hne
  have h2 : ("" : String) < t := by
    rw [String.lt_iff_toList_lt]
    cases ht : t.toList with
    | nil => exact absurd (String.toList_inj.mp (by simpa using ht)) hne
    | cons c cs => exact ht ▸ List.nil_lt_cons c cs
  exact absurd h2 (not_lt.mpr h)

theorem sortKey_str {s : Snapshot} (h : laStrOrNull s = true) :
    sortKey s = .jstr (keyStr s) := by
  unfold laStrOrNull at h
  unfold sortKey keyStr pyTruthy
  cases hla : s.last_activity with
  | jstr t =>
    by_cases ht : t = ""
    · subst ht; simp
    · simp [ht]
  | jnull => simp
  | jbool b => rw [hla] at h; simp at h
  | jnum n => rw [hla] at h; simp at h
  | jarr xs => rw [hla] at h; simp at h
  | jobj kvs => rw [hla] at h; simp at h

theorem insertDescE_mem {x : Snapshot} :
    ∀ {l m : List Snapshot}, insertDescE x l = .ok m →
      ∀ z, z ∈ m ↔ z = x ∨ z ∈ l := by
  intro l
  induction l with
  | nil =>
    intro m h z
    injection h with h
    subst h
    simp
  | cons y ys ih =>
    intro m h z
    unfold insertDescE at h
    try simp only [bind, Except.bind] at h
    split at h
    · simp at h
    case _ lt hlt =>
      split at h
      · try simp only [bind, Except.bind] at h
        split at h
        · simp at h
        case _ r hr =>
          injection h with h
          subst h
          rw [List.mem_cons]
          rw [ih hr z]
          simp only [List.mem_cons]
          tauto
      · injection h with h
        subst h
        exact List.mem_cons

theorem insertDescE_ok_sorted {x : Snapshot} (hx : laStrOrNull x = true) :
    ∀ {l : List Snapshot}, (∀ y ∈ l, laStrOrNull y = true) →
      ∃ m, insertDescE x l = .ok m ∧
        (keySortedDesc l → keySortedDesc m) := by
  intro l
  induction l with
  | nil =>
    intro _
    exact ⟨[x], rfl, fun _ => List.pairwise_singleton _ _⟩
  | cons y ys ih =>
    intro hl
    have hy := hl y (List.mem_cons_self _ _)
    have hys : ∀ z ∈ ys, laStrOrNull z = true :=
      fun z hz => hl z (List.mem_cons_of_mem _ hz)
    have hkey : pyLtE (sortKey x) (sortKey y) =
        .ok (decide (keyStr x < keyStr y)) := by
      rw [sortKey_str hx, sortKey_str hy]
      show Except.ok (pyCharsLt (keyStr x).data (keyStr y).data) = _
      rw [pyCharsLt_eq_decide]
    by_cases hlt : keyStr x < keyStr y
    · obtain ⟨m', hm', hsort'⟩ := ih hys
      refine ⟨y :: m', ?_, ?_⟩
      · unfold insertDescE
        rw [hkey]
        simp only [bind, Except.bind, decide_eq_true hlt, if_true, hm']
      · intro hsorted
        rw [keySortedDesc, List.pairwise_cons] at hsorted ⊢
        obtain ⟨hy_ys, hys_sorted⟩ := hsorted
        refine ⟨?_, hsort' hys_sorted⟩
        intro z hz
        rcases (insertDescE_mem hm' z).mp hz with rfl | hz'
        · exact le_of_lt hlt
        · exact hy_ys z hz'
    · refine ⟨x :: y :: ys, ?_, ?_⟩
      · unfold insertDescE
        rw [hkey]
        simp only [bind, Except.bind, decide_eq_false hlt, Bool.false_eq_true,
          if_false]
      · intro hsorted
        rw [keySortedDesc, List.pairwise_cons] at hsorted ⊢
        obtain ⟨hy_ys, hys_sorted⟩ := hsorted
        refine ⟨?_, List.pairwise_cons.mpr ⟨hy_ys, hys_sorted⟩⟩
        intro z hz
        rcases List.mem_cons.mp hz with rfl | hz'
        · exact not_lt.mp hlt
        · exact le_trans (hy_ys z hz') (not_lt.mp hlt)

theorem pySortDescE_mem :
    ∀ {xs m : List Snapshot}, pySortDescE xs = .ok m →
      ∀ z, z ∈ m ↔ z ∈ xs := by
  intro xs
  induction xs with
  | nil =>
    intro m h z
    injection h with h
    subst h
    simp
  | cons x xs' ih =>
    intro m h z
    unfold pySortDescE at h
    simp only [bind, Except.bind] at h
    split at h
    · simp at h
    case _ r hr =>
      rw [insertDescE_mem h z, ih hr z, List.mem_cons]

theorem pySortDescE_ok_sorted :
    ∀ {xs : List Snapshot}, (∀ y ∈ xs, laStrOrNull y = true) →
      ∃ m, pySortDescE xs = .ok m ∧ keySortedDesc m := by
  intro xs
  induction xs with
  | nil => intro _; exact ⟨[], rfl, List.Pairwise.nil⟩
  | cons x xs' ih =>
    intro hl
    have hx := hl x (List.mem_cons_self _ _)
    have hxs : ∀ z ∈ xs', laStrOrNull z = true :=
      fun z hz => hl z (List.mem_cons_of_mem _ hz)
    obtain ⟨m', hm', hsorted'⟩ := ih hxs
    have hm'str : ∀ z ∈ m', laStrOrNull z = true :=
      fun z hz => hxs z ((pySortDescE_mem hm' z).mp hz)
    obtain ⟨m, hm, hsort⟩ := insertDescE_ok_sorted hx hm'str
    refine ⟨m, ?_, hsort hsorted'⟩
    unfold pySortDescE
    simp only [bind, Except.bind, hm', hm]


theorem fileStep_eq_of_stale {now : Int} {f : LogFile}
    (h : now - f.mtime > ACTIVE_THRESHOLD_SECONDS) :
    ∀ pn pp a, fileStep now pn pp a f = a := by
  intro pn pp a
  unfold fileStep
  split
  · rfl
  split
  · rfl
  rw [if_pos h]

theorem parseSession_none_of_bad {lines : List (Option JVal)}
    (h : lines = [] ∨ lines.getLast? = some none) :
    ∀ stem pn pp age, parseSession lines stem pn pp age = none := by
  intro stem pn pp age
  unfold parseSession parseSessionE
  rcases h with h | h
  · subst h
    rfl
  · rw [h]

theorem fileStep_eq_of_none {now : Int} {f : LogFile}
    (h : ∀ stem pn pp age, parseSession f.lines stem pn pp age = none) :
    ∀ pn pp a, fileStep now pn pp a f = a := by
  intro pn pp a
  unfold fileStep
  split
  · rfl
  split
  · rfl
  dsimp only
  split
  · rfl
  rw [h]

theorem scan_erase {now : Int} {f : LogFile}
    (hid : ∀ pn pp a, fileStep now pn pp a f = a) :
    ∀ (root : Bool) (pre post : List ProjectDir) (dname : String)
      (fs1 fs2 : List LogFile) (ts : String),
      scan ⟨root, pre ++ ⟨dname, fs1 ++ f :: fs2⟩ :: post⟩ now ts =
      scan ⟨root, pre ++ ⟨dname, fs1 ++ fs2⟩ :: post⟩ now ts := by
  intro root pre post dname fs1 fs2 ts
  have hagg : scanAgg ⟨root, pre ++ ⟨dname, fs1 ++ f :: fs2⟩ :: post⟩ now =
      scanAgg ⟨root, pre ++ ⟨dname, fs1 ++ fs2⟩ :: post⟩ now := by
    unfold scanAgg
    simp only [List.foldl_append, List.foldl_cons]
    congr 1
    unfold dirStep
    simp only [List.foldl_append, List.foldl_cons]
    rw [hid]
  unfold scan
  dsimp only
  rw [hagg]

/-- C2: a log file whose age exceeds the 600-second active threshold is
skipped entirely: removing it from its directory leaves the scan result —
sessions, counts and waiting projects — unchanged, whatever the file
holds. -/
theorem c2_stale_file_invisible (root : Bool) (pre post : List ProjectDir)
    (dname : String) (fs1 fs2 : List LogFile) (f : LogFile)
    (now : Int) (ts : String) (h : now - f.mtime > 600) :
    scan ⟨root, pre ++ ⟨dname, fs1 ++ f :: fs2⟩ :: post⟩ now ts =
    scan ⟨root, pre ++ ⟨dname, fs1 ++ fs2⟩ :: post⟩ now ts :=
  scan_erase (fileStep_eq_of_stale h) root pre post dname fs1 fs2 ts

theorem c2_witness :
    ((700 : Int) - 0 > 600) ∧
    scan ⟨true, [⟨"p", [⟨"a.jsonl", 0, [some (.jobj [])]⟩]⟩]⟩ 700 "T" =
      scan ⟨true, [⟨"p", []⟩]⟩ 700 "T" :=
  ⟨by decide,
   c2_stale_file_invisible true [] [] "p" [] [] ⟨"a.jsonl", 0, [some (.jobj [])]⟩
     700 "T" (by decide)⟩

/-- C3: a session whose age lies strictly between the idle threshold
(300 s) and the active threshold (600 s) is always classified idle, no
matter what the last entry holds. -/
theorem c3_idle_window (lines : List (Option JVal)) (stem pn pp : String)
    (age : Int) (s : Snapshot) (h1 : 300 < age) (h2 : age ≤ 600)
    (hsome : parseSession lines stem pn pp age = some s) :
    s.state = "idle" := by
  obtain ⟨e, ety, acc, he, hety, hstate, hs1, _, _⟩ := parseSession_some_elim hsome
  rw [stateEtc_idle h1] at hstate
  injection hstate with hstate
  rw [hs1, ← hstate]

/-- C9: with the filesystem snapshot and the clock fixed, two scans agree
on every field except the report timestamp (including the error case). -/
theorem c9_deterministic (fs : Filesystem) (now : Int) (ts1 ts2 : String) :
    (scan fs now ts1).map reportData = (scan fs now ts2).map reportData := by
  unfold scan
  cases hroot : fs.rootExists with
  | false => rfl
  | true =>
    simp only [if_true]
    cases hs : pySortDescE (scanAgg fs now).sessions <;>
      simp [Except.map, reportData]



/-- C5 (general rule): for an in-window assistant entry whose content list
holds no `tool_use` item, a produced snapshot is waiting for a question
exactly when some text item's stripped content ends with a question mark,
and otherwise reports a completed task. -/
theorem c5_text_question_heuristic
    (lines : List (Option JVal)) (stem pn pp : String) (age : Int)
    (kvs mkvs : List (String × JVal)) (items : List JVal) (s : Snapshot)
    (hage : age ≤ 300)
    (hlast : lines.getLast? = some (some (.jobj kvs)))
    (htype : lookupLast kvs "type" = some (.jstr "assistant"))
    (hmsg : (lookupLast kvs "message").getD (.jobj []) = .jobj mkvs)
    (hcont : (lookupLast mkvs "content").getD (.jarr []) = .jarr items)
    (hnotool : ∀ it ∈ items, isToolUse it = false)
    (hsome : parseSession lines stem pn pp age = some s) :
    s.state = (if items.any isTextQ then "waiting_for_question"
               else "task_complete") := by
  obtain ⟨e, ety, acc, he, hety, hstate, hs1, _, _⟩ := parseSession_some_elim hsome
  rw [hlast] at he
  have he' : e = .jobj kvs := by
    injection he with he
    injection he with he
    exact he.symm
  subst he'
  simp only [pyGetE] at hety
  rw [htype] at hety
  simp only [Option.getD_some] at hety
  injection hety with hety
  subst hety
  have hage' : ¬ age > IDLE_THRESHOLD_SECONDS :=
    not_lt.mpr (show age ≤ IDLE_THRESHOLD_SECONDS from hage)
  obtain ⟨accL, hL, hstacc, _, _⟩ :=
    stateEtc_assistant_elim hage' hmsg hcont hstate
  obtain ⟨hLst, _, _, hLq⟩ := processItems_no_tool hnotool _ _ hL
  rw [hs1, hstacc, hLst, hLq]
  simp

/-- C4 (amended): when the FIRST `tool_use` item of an in-window assistant
entry's content is named `AskUserQuestion`, a produced snapshot waits for
a question with a question-type pending approval; and accumulating a
waiting-for-question snapshot never touches the processing counter. -/
theorem c4_first_ask_question
    (lines : List (Option JVal)) (stem pn pp : String) (age : Int)
    (kvs mkvs : List (String × JVal)) (pre rest : List JVal) (item : JVal)
    (s : Snapshot)
    (hage : age ≤ 300)
    (hlast : lines.getLast? = some (some (.jobj kvs)))
    (htype : lookupLast kvs "type" = some (.jstr "assistant"))
    (hmsg : (lookupLast kvs "message").getD (.jobj []) = .jobj mkvs)
    (hcont : (lookupLast mkvs "content").getD (.jarr []) = .jarr (pre ++ item :: rest))
    (hpre : ∀ it ∈ pre, isToolUse it = false)
    (hitem : isToolUse item = true)
    (hname : jName item = .jstr "AskUserQuestion")
    (hsome : parseSession lines stem pn pp age = some s) :
    (s.state = "waiting_for_question" ∧
      ∃ pa, s.pending_approval = some pa ∧ pa.type = "question") ∧
    (∀ (a : Agg) (p : String) (s2 : Snapshot),
      s2.state = "waiting_for_question" →
      (addSession p a s2).processing = a.processing) := by
  constructor
  · obtain ⟨e, ety, acc, he, hety, hstate, hs1, hs2, _⟩ :=
      parseSession_some_elim hsome
    rw [hlast] at he
    have he' : e = .jobj kvs := by
      injection he with he
      injection he with he
      exact he.symm
    subst he'
    simp only [pyGetE] at hety
    rw [htype] at hety
    simp only [Option.getD_some] at hety
    injection hety with hety
    subst hety
    have hage' : ¬ age > IDLE_THRESHOLD_SECONDS :=
      not_lt.mpr (show age ≤ IDLE_THRESHOLD_SECONDS from hage)
    obtain ⟨accL, hL, hstacc, hpaacc, _⟩ :=
      stateEtc_assistant_elim hage' hmsg hcont hstate
    obtain ⟨hLst, pa, hLpa, hLty⟩ := processItems_pre_ask hitem hname pre hpre _ _ hL
    refine ⟨?_, pa, ?_, hLty⟩
    · rw [hs1, hstacc, hLst]
      simp
    · rw [hs2, hpaacc, hLpa]
  · intro a p s2 h2
    unfold addSession
    rw [if_pos (Or.inl h2)]

/-- C10 (implicit): an in-window assistant entry whose content list has no
`tool_use` and no `text` dict items (empty list, absent message/content,
or only unrecognized items) classifies without error to `task_complete`,
with an empty preview and no pending approval. -/
theorem c10_unrecognized_content_task_complete
    (lines : List (Option JVal)) (stem pn pp : String) (age : Int)
    (kvs mkvs : List (String × JVal)) (items : List JVal)
    (hage : age ≤ 300)
    (hlast : lines.getLast? = some (some (.jobj kvs)))
    (htype : lookupLast kvs "type" = some (.jstr "assistant"))
    (hmsg : (lookupLast kvs "message").getD (.jobj []) = .jobj mkvs)
    (hcont : (lookupLast mkvs "content").getD (.jarr []) = .jarr items)
    (hskip : ∀ it ∈ items, isToolUse it = false ∧ isTextItem it = false) :
    (parseSession lines stem pn pp age).map Snapshot.state =
      some "task_complete" ∧
    (parseSession lines stem pn pp age).map Snapshot.last_message_preview =
      some (.jstr "") ∧
    (parseSession lines stem pn pp age).map Snapshot.pending_approval =
      some none := by
  have hage' : ¬ age > IDLE_THRESHOLD_SECONDS :=
    not_lt.mpr (show age ≤ IDLE_THRESHOLD_SECONDS from hage)
  have hstate : stateEtc age (.jstr "assistant") (.jobj kvs) =
      .ok ⟨"task_complete", none, none, .jstr "", false⟩ := by
    unfold stateEtc
    rw [if_neg hage']
    rw [show jEqStr (.jstr "assistant") "user" = false from by decide]
    rw [show jEqStr (.jstr "assistant") "assistant" = true from by decide]
    simp only [Bool.false_eq_true, if_false, if_true, bind, Except.bind, pyGetE]
    rw [hmsg]
    dsimp only
    rw [hcont]
    dsimp only [pyIterE]
    rw [processItems_skip hskip]
    simp
  unfold parseSession parseSessionE
  rw [hlast]
  simp only [pyGetE, bind, Except.bind]
  rw [htype]
  simp only [Option.getD_some]
  rw [hstate]
  rw [hmsg]
  dsimp only
  refine ⟨rfl, rfl, rfl⟩


/-! ## Claim theorems -/

/-- C1: the scripted scenario — one project directory `-Users-alice-proj`,
one log file 60 s old whose last line is an assistant entry with a `Bash`
tool use — produces exactly one snapshot with project name `proj`, path
`/Users/alice/proj`, state `waiting_for_approval` and a `Bash` pending
approval, with `waiting_count = 1` and `projects_with_waiting = ["proj"]`. -/
theorem c1_scenario_bash (ts : String) :
    scan fsC1 60 ts = .ok ⟨ts, [snapC1], 1, 0, ["proj"]⟩ ∧
    snapC1.project_name = "proj" ∧
    snapC1.project_path = "/Users/alice/proj" ∧
    snapC1.state = "waiting_for_approval" ∧
    snapC1.pending_approval.map PendingApproval.tool_name = some (.jstr "Bash") :=
  ⟨rfl, rfl, rfl, rfl, rfl⟩

/-- C6: in a returned report whose snapshots carry string-or-absent
last-activity values (the shape §3 of the spec gives the field), the
sessions are sorted by that key in descending lexicographic order and no
absent-timestamp snapshot precedes one with a non-empty timestamp. -/
theorem c6_sorted_descending {fs : Filesystem} {now : Int} {ts : String}
    {r : ScanReport} (hok : scan fs now ts = .ok r)
    (hstr : ∀ s ∈ r.active_sessions, laStrOrNull s = true) :
    keySortedDesc r.active_sessions ∧ absentAfterPresent r.active_sessions := by
  have hsorted : keySortedDesc r.active_sessions := by
    unfold scan at hok
    split at hok
    · dsimp only at hok
      split at hok
      case _ sorted hs =>
        injection hok with hok
        subst hok
        have hin : ∀ z ∈ (scanAgg fs now).sessions, laStrOrNull z = true := by
          intro z hz
          exact hstr z ((pySortDescE_mem hs z).mpr hz)
        obtain ⟨m, hm, hsort⟩ := pySortDescE_ok_sorted hin
        rw [hs] at hm
        injection hm with hm
        dsimp only
        rw [hm]
        exact hsort
      case _ e hs => exact absurd hok (by simp)
    · injection hok with hok
      subst hok
      exact List.Pairwise.nil
  refine ⟨hsorted, ?_⟩
  unfold absentAfterPresent
  unfold keySortedDesc at hsorted
  refine List.Pairwise.imp_of_mem ?_ hsorted
  intro a b _ _ hkey
  rintro ⟨hanull, t, hbstr, htne⟩
  have hka : keyStr a = "" := by unfold keyStr; rw [hanull]
  have hkb : keyStr b = t := by unfold keyStr; rw [hbstr]
  rw [hka, hkb] at hkey
  exact htne (empty_of_le_empty hkey)

theorem c6_witness :
    keySortedDesc wRepC6.active_sessions ∧
    absentAfterPresent wRepC6.active_sessions :=
  c6_sorted_descending (show scan wFsC6 0 "T" = .ok wRepC6 from rfl) (by decide)

/-- C7 fails as stated: for the directory name `-a-` (delimiter-led, ending
in the delimiter) the code derives the EMPTY project name, not the last
non-empty segment `a` the spec describes. -/
theorem c7_counterexample :
    pyStartsWith "-a-" "-" = true ∧
    (projectInfo "-a-").1 = "" ∧
    specProjectName "-a-" = "a" ∧
    (projectInfo "-a-").1 ≠ specProjectName "-a-" :=
  ⟨by decide, by decide, by decide, by decide⟩

/-- C7 (amended): for a delimiter-led directory name the derived pair is
the last segment of the '-'-split (possibly empty) together with the
segments after the first rejoined with `/` and prefixed with `/`. -/
theorem c7_amended_project_info (dn : String)
    (h : pyStartsWith dn "-" = true) :
    projectInfo dn = amendedProjectInfo dn := by
  unfold projectInfo amendedProjectInfo
  rw [if_pos h]

theorem c7_witness :
    pyStartsWith "-Users-alice-proj" "-" = true ∧
    projectInfo "-Users-alice-proj" = amendedProjectInfo "-Users-alice-proj" :=
  ⟨by decide, c7_amended_project_info "-Users-alice-proj" (by decide)⟩

/-- C8 fails as stated: scanning two fresh sessions whose truthy
`last_activity` values are a number and a string makes the final sort
compare incomparable keys, and the resulting `TypeError` escapes
`scan_active_sessions`. -/
theorem c8_counterexample : scan wFsC8 60 "T" = .error () := rfl

/-- C8 (amended): a missing root yields the empty report; a scan whose
accumulated snapshots all carry string-or-absent `last_activity` values
returns a report without raising; and a file with zero lines or an
unparseable last line is excluded without altering anything else. -/
theorem c8_no_fatal_error_amended :
    (∀ (dirs : List ProjectDir) (now : Int) (ts : String),
      scan ⟨false, dirs⟩ now ts = .ok ⟨ts, [], 0, 0, []⟩) ∧
    (∀ (fs : Filesystem) (now : Int) (ts : String),
      (∀ s ∈ (scanAgg fs now).sessions, laStrOrNull s = true) →
      ∃ r, scan fs now ts = .ok r) ∧
    (∀ (root : Bool) (pre post : List ProjectDir) (dname : String)
       (fs1 fs2 : List LogFile) (f : LogFile) (now : Int) (ts : String),
      (f.lines = [] ∨ f.lines.getLast? = some none) →
      scan ⟨root, pre ++ ⟨dname, fs1 ++ f :: fs2⟩ :: post⟩ now ts =
      scan ⟨root, pre ++ ⟨dname, fs1 ++ fs2⟩ :: post⟩ now ts) := by
  refine ⟨fun dirs now ts => rfl, ?_, ?_⟩
  · intro fs now ts hstr
    unfold scan
    cases hroot : fs.rootExists with
    | false => exact ⟨⟨ts, [], 0, 0, []⟩, by simp⟩
    | true =>
      obtain ⟨m, hm, _⟩ := pySortDescE_ok_sorted hstr
      exact ⟨⟨ts, m, (scanAgg fs now).waiting, (scanAgg fs now).processing,
        (scanAgg fs now).projectsWaiting⟩, by simp [hm]⟩
  · intro root pre post dname fs1 fs2 f now ts hbad
    exact scan_erase (fileStep_eq_of_none (parseSession_none_of_bad hbad))
      root pre post dname fs1 fs2 ts

theorem c8_witness :
    scan ⟨false, []⟩ 0 "T" = .ok ⟨"T", [], 0, 0, []⟩ ∧
    (∃ r, scan wFsC6 0 "T" = .ok r) ∧
    scan ⟨true, [⟨"p", [⟨"empty.jsonl", 0, []⟩]⟩]⟩ 0 "T" =
      scan ⟨true, [⟨"p", []⟩]⟩ 0 "T" :=
  ⟨c8_no_fatal_error_amended.1 [] 0 "T",
   c8_no_fatal_error_amended.2.1 wFsC6 0 "T" (by decide),
   c8_no_fatal_error_amended.2.2 true [] [] "p" [] [] ⟨"empty.jsonl", 0, []⟩
     0 "T" (Or.inl rfl)⟩

/-- C4 fails as stated: an assistant entry whose content CONTAINS an
`AskUserQuestion` tool use, but behind another tool use, classifies as
`waiting_for_approval`: the first tool use wins and short-circuits. -/
theorem c4_counterexample :
    isToolUse itemAsk = true ∧
    jName itemAsk = .jstr "AskUserQuestion" ∧
    ((60 : Int) ≤ 300) ∧
    (parseSession [some entryC4ce] "s1" "p" "/p" 60).map Snapshot.state =
      some "waiting_for_approval" :=
  ⟨by decide, rfl, by decide, rfl⟩

theorem c4_witness :
    wSnapC4.state = "waiting_for_question" ∧
    ∃ pa, wSnapC4.pending_approval = some pa ∧ pa.type = "question" :=
  (c4_first_ask_question [some wEntryAsk] "s1" "p" "/p" 60
    [("type", .jstr "assistant"),
     ("message", .jobj [("content", .jarr [itemAsk])])]
    [("content", .jarr [itemAsk])] [] [] itemAsk wSnapC4
    (by decide) rfl rfl rfl rfl (by simp) (by decide) rfl rfl).1

theorem c5_witness :
    (wSnapText "Done. Anything else?" "waiting_for_question").state =
      "waiting_for_question" ∧
    (wSnapText "Done." "task_complete").state = "task_complete" :=
  ⟨(c5_text_question_heuristic [some (wTextEntry "Done. Anything else?")]
      "s1" "p" "/p" 60
      [("type", .jstr "assistant"),
       ("message", .jobj [("content", .jarr [wTextItem "Done. Anything else?"])])]
      [("content", .jarr [wTextItem "Done. Anything else?"])]
      [wTextItem "Done. Anything else?"]
      (wSnapText "Done. Anything else?" "waiting_for_question")
      (by decide) rfl rfl rfl rfl (by decide) rfl).trans (by decide),
   (c5_text_question_heuristic [some (wTextEntry "Done.")]
      "s1" "p" "/p" 60
      [("type", .jstr "assistant"),
       ("message", .jobj [("content", .jarr [wTextItem "Done."])])]
      [("content", .jarr [wTextItem "Done."])]
      [wTextItem "Done."]
      (wSnapText "Done." "task_complete")
      (by decide) rfl rfl rfl rfl (by decide) rfl).trans (by decide)⟩

theorem c3_witness :
    ((300 : Int) < 400) ∧ ((400 : Int) ≤ 600) ∧ wSnapC3.state = "idle" :=
  ⟨by decide, by decide,
   c3_idle_window [some (.jobj [])] "s1" "p" "/p" 400 wSnapC3
     (by decide) (by decide) rfl⟩

theorem c10_witness :
    (parseSession [some wEntryC10] "s1" "p" "/p" 60).map Snapshot.state =
      some "task_complete" ∧
    (parseSession [some wEntryC10] "s1" "p" "/p" 60).map
      Snapshot.last_message_preview = some (.jstr "") ∧
    (parseSession [some wEntryC10] "s1" "p" "/p" 60).map
      Snapshot.pending_approval = some none :=
  c10_unrecognized_content_task_complete [some wEntryC10] "s1" "p" "/p" 60
    [("type", .jstr "assistant"),
     ("message", .jobj [("content", .jarr [wItemC10])])]
    [("content", .jarr [wItemC10])] [wItemC10]
    (by decide) rfl rfl rfl rfl (by decide)


end ClaudeCentral
